import Mathlib

/-!
Verification development for the PDF text-extraction-and-embedding-retrieval
pipeline of the `trinkets` repository.

The definitions below are shallow embeddings of the Python sources:

* `find_title`, `extract_text` embed `src/utils/pdf_reader.py`;
* `create_features_from_dataframe`, `compute_embeddings`,
  `generate_embeddings_for_dataframe` embed
  `src/pdf_semantic_search/utils/embedding_generator.py`;
* `remove_file_and_embedding`, `get_pdf_names` embed
  `src/utils/file_manager.py`;
* `load_all` embeds the `initialize_globals` loading loop of
  `src/pdf_semantic_search/app.py`, and `search` embeds its `/search`
  route.

Python string primitives (`str.rfind` with negative end index, slicing,
`str.strip`, and the two regular expressions used by the reader) are
embedded explicitly over `List Char`.
-/

/-- Python whitespace characters recognised by `str.strip()`. -/
def isPySpace (c : Char) : Bool :=
  c == ' ' || c == '\t' || c == '\n' || c == '\r' || c == '\x0b' || c == '\x0c'

/-- Python `s.strip()`: drop leading and trailing whitespace. -/
def pyStrip (cs : List Char) : List Char :=
  ((cs.dropWhile isPySpace).reverse.dropWhile isPySpace).reverse

/-- Python index adjustment for `find`/`rfind`/slice bounds: a negative
index counts from the end (clamped at 0), a positive one is clamped at
the length. -/
def pyAdjust (len : Nat) (i : Int) : Nat :=
  if i < 0 then (i + len).toNat else min i.toNat len

/-- Python `s.rfind(c, b, e)`: the largest index `j` with
`b <= j < e` (after Python index adjustment) such that `s[j] = c`,
or `-1` if there is none. -/
def pyRfind (cs : List Char) (c : Char) (b e : Int) : Int :=
  (List.range' (pyAdjust cs.length b) (pyAdjust cs.length e - pyAdjust cs.length b)).foldl
    (fun acc j => if cs.get? j = some c then (j : Int) else acc) (-1)

/-- Python slice `s[a:b]` with Python index adjustment. -/
def pySlice (cs : List Char) (a b : Int) : List Char :=
  (cs.drop (pyAdjust cs.length a)).take (pyAdjust cs.length b - pyAdjust cs.length a)

/-- Check that the pattern `w` occurs at the head of `cs`. -/
def matchesAt : List Char → List Char → Bool
  | [], _ => true
  | _ :: _, [] => false
  | w :: ws, c :: cs => w == c && matchesAt ws cs

/-- The alternation `(Monday|Tuesday|Wednesday|Thursday|Friday|Saturday|Sunday)`
matches at the current position. -/
def weekdayHere (cs : List Char) : Bool :=
  ["Monday", "Tuesday", "Wednesday", "Thursday", "Friday", "Saturday", "Sunday"].any
    (fun w => matchesAt w.data cs)

/-- Scan for the leftmost match of the weekday alternation, as
`re.search` does; returns the match start index. -/
def findWeekdayAux : List Char → Nat → Option Nat
  | [], _ => none
  | c :: rest, i =>
    if weekdayHere (c :: rest) then some i else findWeekdayAux rest (i + 1)

/-- Start index of the leftmost weekday-name occurrence, the embedding of
`re.search(r'(Monday|...|Sunday)', text).start()`. -/
def findWeekday (cs : List Char) : Option Nat := findWeekdayAux cs 0

/-- Embedding of `find_title` from `src/utils/pdf_reader.py`: if a weekday
token occurs, the title is the stripped text from just after the last line
break before `start - 1` (or the page start) up to the token; otherwise
`None`. -/
def find_title (text : String) : Option String :=
  match findWeekday text.data with
  | none => none
  | some s =>
    let te : Int := (s : Int) - 1
    let ts : Int := pyRfind text.data '\n' 0 te + 1
    some (String.mk (pyStrip (pySlice text.data ts (te + 1))))

/-- Word characters of the (ASCII) regex class `\w`. -/
def isWordChar (c : Char) : Bool := c.isAlphanum || c == '_'

/-- A `\b` word boundary holds before a word character when the previous
character (if any) is not a word character. -/
def boundaryOk : Option Char → Bool
  | none => true
  | some p => !(isWordChar p)

/-- Scanner for `re.split(r'\b\w\.\n?', text)`: `prev` is the character
before the scan position, `acc` the current segment reversed. On a match
(word boundary, word char, dot, optional greedy newline) the current
segment is cut and scanning resumes after the match. -/
def pySplitAux : Option Char → List Char → List Char → List (List Char)
  | _, acc, [] => [acc.reverse]
  | prev, acc, c :: '.' :: '\n' :: rest3 =>
    if boundaryOk prev && isWordChar c then acc.reverse :: pySplitAux (some '\n') [] rest3
    else pySplitAux (some c) (c :: acc) ('.' :: '\n' :: rest3)
  | prev, acc, c :: '.' :: rest2 =>
    if boundaryOk prev && isWordChar c then acc.reverse :: pySplitAux (some '.') [] rest2
    else pySplitAux (some c) (c :: acc) ('.' :: rest2)
  | _, acc, c :: rest => pySplitAux (some c) (c :: acc) rest

/-- Embedding of `re.split(r'\b\w\.\n?', text)`. -/
def pySplit (cs : List Char) : List (List Char) := pySplitAux none [] cs

/-- Embedding of the paragraph list of one page:
`[para for para in re.split(r'\b\w\.\n?', text) if para.strip()]`. -/
def splitParas (t : String) : List String :=
  ((pySplit t.data).filter (fun p => decide (pyStrip p ≠ []))).map String.mk

/-- One output row of `extract_text`: the tuple
`(title_index, current_title, i + 1, j + 1, paragraph)`. -/
structure TextRow where
  page_in_on : Nat
  title : String
  page_in_pdf : Nat
  paragraph : Nat
  text : String
deriving DecidableEq

/-- Truthiness of the Python value `find_title(text)` (an `Optional[str]`):
true when it is neither `None` nor the empty string. -/
def truthyStr : Option String → Bool
  | none => false
  | some s => s != ""

/-- A page carries a detected title marker exactly when `find_title`
returns a truthy value, which is what `if title:` tests in `extract_text`. -/
def markerOf (t : String) : Bool := truthyStr (find_title t)

/-- State update of the `extract_text` loop on one page: the pair
`(current_title, title_index)` after processing the page text. -/
def pageState (ct : String) (ti : Nat) (t : String) : String × Nat :=
  if markerOf t then ((find_title t).getD "", ti + 1) else (ct, ti)

/-- Rows appended for the paragraphs of one page, `j` being the number of
paragraphs already emitted on this page (the enumeration counter). -/
def pageRowsAux (ct : String) (ti : Nat) (pageNo : Nat) : Nat → List String → List TextRow
  | _, [] => []
  | j, p :: ps => ⟨ti, ct, pageNo, j + 1, p⟩ :: pageRowsAux ct ti pageNo (j + 1) ps

/-- Main loop of `extract_text`: `ct`/`ti` are `current_title`/
`title_index`, and `i` the number of pages already processed. -/
def extractAux : String → Nat → Nat → List String → List TextRow
  | _, _, _, [] => []
  | ct, ti, i, t :: rest =>
    pageRowsAux (pageState ct ti t).1 (pageState ct ti t).2 (i + 1) 0 (splitParas t)
      ++ extractAux (pageState ct ti t).1 (pageState ct ti t).2 (i + 1) rest

/-- Embedding of `extract_text` from `src/utils/pdf_reader.py`, over the
list of page texts produced by the external PDF parser. -/
def extract_text (pages : List String) : List TextRow := extractAux "" 0 0 pages

/-- Number of pages in a list carrying a detected title marker. -/
def mcount (pages : List String) : Nat := pages.countP markerOf

/-- The current title after folding the marker updates of `pages` over the
initial title `ct`. -/
def lastTitle (ct : String) (pages : List String) : String :=
  pages.foldl (fun c t => if markerOf t then (find_title t).getD "" else c) ct

/-- One row of the DataFrame returned by `extract_information`: an
`extract_text` row plus the `file_name` column. -/
structure DocRow where
  page_in_on : Nat
  title : String
  page_in_pdf : Nat
  paragraph : Nat
  text : String
  file_name : String
deriving DecidableEq

/-- Embedding of `extract_information`: run `extract_text` and attach the
document identifier as the `file_name` column. -/
def extract_information (pages : List String) (file_name : String) : List DocRow :=
  (extract_text pages).map
    (fun r => ⟨r.page_in_on, r.title, r.page_in_pdf, r.paragraph, r.text, file_name⟩)

/-- Embedding of `create_features_from_dataframe`: each row is paired with
its `data` column, the f-string joining the title and text columns with
the three-character separator space, newline, space:
`title ++ " \n " ++ text`. -/
def create_features_from_dataframe (df : List DocRow) : List (DocRow × String) :=
  df.map (fun x => (x, x.title ++ " \n " ++ x.text))

/-- Embedding of `compute_embeddings` with the external encoder abstracted
as a function `embed`: the encoder maps each input text to its vector. -/
def compute_embeddings (textList : List String) (embed : String → List Int) : List (List Int) :=
  textList.map embed

/-- Embedding of `generate_embeddings_for_dataframe`: each featured row
gains an `embeddings` column computed by the encoder from its `data`
column. -/
def generate_embeddings_for_dataframe (df : List DocRow) (embed : String → List Int) :
    List (DocRow × String × List Int) :=
  (create_features_from_dataframe df).map
    (fun x => (x.1, x.2, (compute_embeddings [x.2] embed).headD []))

/-- One record of the persisted embeddings dataset, with the columns the
`/search` route reads. -/
structure EmbUnit where
  file_name : String
  title : String
  page_in_pdf : Nat
  text : String
  embeddings : List Int
deriving DecidableEq

/-- Python exceptions that the embedded app code can raise. -/
inductive PyErr where
  /-- Subscripting `None`, as in `None['file_name']`. -/
  | typeError
  /-- Calling a method on `None`, as in `None.filter(...)`. -/
  | attributeError
  /-- Modelled failure of the external faiss index on an empty dataset. -/
  | indexError
  /-- `shutil.rmtree` on a missing directory. -/
  | fileNotFound
  /-- `load_from_disk` on corrupt or truncated persisted data. -/
  | corrupt
deriving DecidableEq

/-- Embedding of `get_pdf_names` from `src/utils/file_manager.py`:
`list(set(dataset["file_name"]))` when the dataset is not `None`, else the
empty list. -/
def get_pdf_names (dataset : Option (List EmbUnit)) : List String :=
  match dataset with
  | some ds => (ds.map (fun u => u.file_name)).dedup
  | none => []

/-- Embedding of the loading loop of `initialize_globals` in
`src/pdf_semantic_search/app.py` (the `load_all` operation of the spec).
The persisted store is a list of per-document directories together with
the outcome of `load_from_disk` on each; the loop concatenates the loaded
datasets and lets any exception propagate. `loadStep` is one loop
iteration, `load_all` the whole loop. -/
def loadStep (acc : Except PyErr (Option (List EmbUnit)))
    (entry : String × Except PyErr (List EmbUnit)) : Except PyErr (Option (List EmbUnit)) :=
  match acc with
  | .error e => .error e
  | .ok cur =>
    match entry.2 with
    | .error e => .error e
    | .ok loaded =>
      match cur with
      | none => .ok (some loaded)
      | some embs => .ok (some (embs ++ loaded))

def load_all (store : List (String × Except PyErr (List EmbUnit))) :
    Except PyErr (Option (List EmbUnit)) :=
  store.foldl loadStep (.ok none)

/-- Units of a successfully loaded per-document dataset, empty on error;
used only to state what a fully successful `load_all` returns. -/
def okUnits : Except PyErr (List EmbUnit) → List EmbUnit
  | .ok us => us
  | .error _ => []

/-- The union of the per-document datasets, `None` when the store is
empty: what `load_all` returns when every document loads successfully. -/
def loadAllOk (store : List (String × Except PyErr (List EmbUnit))) : Option (List EmbUnit) :=
  match store with
  | [] => none
  | p :: rest => some (rest.foldl (fun a q => a ++ okUnits q.2) (okUnits p.2))

/-- Comparison of scored results by score, the order `sort_values` uses. -/
def scoreLE (a b : Int × EmbUnit) : Prop := a.1 ≤ b.1

instance : DecidableRel scoreLE := fun a b => inferInstanceAs (Decidable (a.1 ≤ b.1))

instance : IsTotal (Int × EmbUnit) scoreLE := ⟨fun a b => Int.le_total a.1 b.1⟩

instance : IsTrans (Int × EmbUnit) scoreLE := ⟨fun _ _ _ h1 h2 => le_trans h1 h2⟩

/-- Squared euclidean distance between a query vector and a stored vector,
the metric of the flat faiss index used by `add_faiss_index`. -/
def sqDist (q v : List Int) : Int :=
  (q.zip v).foldl (fun a p => a + (p.1 - p.2) * (p.1 - p.2)) 0

/-- Embedding of the `/search` route of `src/pdf_semantic_search/app.py`.
The store is `g.pdf_embeddings` (`None` when no document is indexed),
`queryEmb` the query embedding, `selected` the posted `pdf_files` list and
`k` the neighbour count. On `None` the route raises (`TypeError` from
`set(None['file_name'])` without a selection, `AttributeError` from
`None.filter` with one). Otherwise the dataset is filtered to the selected
file names; the faiss call on an empty dataset fails (modelled
`indexError`), and on a non-empty one returns the `k` nearest rows by
score ascending, which `sort_values` then orders ascending again.
`selOf` is the effective selection (all indexed file names when the posted
list is empty), `searchFiltered` the dataset restricted to it, and
`search` the whole route. -/
def selOf (units : List EmbUnit) (selected : List String) : List String :=
  if selected.isEmpty then (units.map (fun u => u.file_name)).dedup else selected

/-- The dataset restricted to the selected file names, the embedding of
the filter call on the loaded embeddings dataset. -/
def searchFiltered (units : List EmbUnit) (selected : List String) : List EmbUnit :=
  units.filter (fun u => decide (u.file_name ∈ selOf units selected))

def search (store : Option (List EmbUnit)) (queryEmb : List Int) (selected : List String)
    (k : Nat) : Except PyErr (List (Int × EmbUnit)) :=
  match store with
  | none => if selected.isEmpty then .error .typeError else .error .attributeError
  | some units =>
    if (searchFiltered units selected).isEmpty then .error .indexError
    else
      .ok (List.insertionSort scoreLE
        ((List.insertionSort scoreLE
          ((searchFiltered units selected).map
            (fun u => (sqDist queryEmb u.embeddings, u)))).take k))

/-- Filesystem state touched by `src/utils/file_manager.py`: the PDF files
directory and the per-document embedding directories with their persisted
units. -/
structure FileStore where
  pdfFiles : List String
  embDirs : List (String × List EmbUnit)
deriving DecidableEq

/-- Embedding of `remove_file_and_embedding`: when the PDF file exists it
is removed and then `shutil.rmtree` deletes the embedding directory,
raising if that directory is missing; when the PDF file does not exist the
call is a no-op. Returns the outcome and the resulting state. -/
def remove_file_and_embedding (fs : FileStore) (name : String) :
    Except PyErr Unit × FileStore :=
  if name ∈ fs.pdfFiles then
    let pdfRest := fs.pdfFiles.filter (fun p => decide (p ≠ name))
    if name ∈ fs.embDirs.map Prod.fst then
      (.ok (), ⟨pdfRest, fs.embDirs.filter (fun p => decide (p.1 ≠ name))⟩)
    else (.error .fileNotFound, ⟨pdfRest, fs.embDirs⟩)
  else (.ok (), fs)

/-- Dataset visible on the next request: `None` when no embedding
directory remains, otherwise the concatenation of the persisted units, as
`initialize_globals` rebuilds it. -/
def storeDataset (fs : FileStore) : Option (List EmbUnit) :=
  match fs.embDirs with
  | [] => none
  | _ => some (fs.embDirs.foldl (fun a p => a ++ p.2) [])

/-- The `list_document_ids` view of the spec: the PDF names derived from
the freshly loaded dataset. -/
def list_document_ids (fs : FileStore) : List String :=
  get_pdf_names (storeDataset fs)

/-- A sample persisted unit for concrete evaluations. -/
def sampleUnit : EmbUnit := ⟨"a", "t", 1, "x", [0]⟩

/-- A sample extracted row for concrete evaluations. -/
def sampleRow : DocRow := ⟨0, "T", 1, 1, "x", "f"⟩

/-- A sample encoder that records the length of the text it receives. -/
def strLen (s : String) : List Int := [(s.length : Int)]

/-- A sample consistent filesystem state with one indexed document. -/
def sampleStore : FileStore := ⟨["a"], [("a", [sampleUnit])]⟩

/-- A sample page text whose split contains an empty segment between two
bullet markers. -/
def pageW : String := "one a.\nb.\ntwo c.\nthree"

theorem pageState_fst (ct : String) (ti : Nat) (t : String) :
    (pageState ct ti t).1 = if markerOf t then (find_title t).getD "" else ct := by
  by_cases h : markerOf t <;> simp [pageState, h]

theorem pageState_snd (ct : String) (ti : Nat) (t : String) :
    (pageState ct ti t).2 = ti + if markerOf t then 1 else 0 := by
  by_cases h : markerOf t <;> simp [pageState, h]

theorem mcount_cons (t : String) (l : List String) :
    mcount (t :: l) = mcount l + if markerOf t then 1 else 0 := by
  simp [mcount, List.countP_cons]

theorem mcount_singleton (t : String) : mcount [t] = if markerOf t then 1 else 0 := by
  simp [mcount, List.countP_cons]

theorem lastTitle_cons (ct : String) (t : String) (l : List String) :
    lastTitle ct (t :: l)
      = lastTitle (if markerOf t then (find_title t).getD "" else ct) l := rfl

theorem pageRowsAux_mem (ct : String) (ti : Nat) (pageNo : Nat) :
    ∀ (j : Nat) (ps : List String) (r : TextRow), r ∈ pageRowsAux ct ti pageNo j ps →
      r.page_in_on = ti ∧ r.title = ct ∧ r.page_in_pdf = pageNo := by
  intro j ps
  induction ps generalizing j with
  | nil => intro r h; simp [pageRowsAux] at h
  | cons p ps ih =>
    intro r h
    simp only [pageRowsAux, List.mem_cons] at h
    rcases h with h | h
    · subst h; exact ⟨rfl, rfl, rfl⟩
    · exact ih _ _ h

theorem pageRowsAux_map_paragraph (ct : String) (ti : Nat) (pageNo : Nat) :
    ∀ (j : Nat) (ps : List String),
      (pageRowsAux ct ti pageNo j ps).map (fun r => r.paragraph)
        = List.range' (j + 1) ps.length := by
  intro j ps
  induction ps generalizing j with
  | nil => simp [pageRowsAux, List.range']
  | cons p ps ih => simp [pageRowsAux, List.range', ih]

theorem pageRowsAux_map_text (ct : String) (ti : Nat) (pageNo : Nat) :
    ∀ (j : Nat) (ps : List String),
      (pageRowsAux ct ti pageNo j ps).map (fun r => r.text) = ps := by
  intro j ps
  induction ps generalizing j with
  | nil => simp [pageRowsAux]
  | cons p ps ih => simp [pageRowsAux, ih]

theorem extractAux_mem :
    ∀ (pages : List String) (ct : String) (ti i : Nat) (r : TextRow),
      r ∈ extractAux ct ti i pages →
      ∃ j, j < pages.length ∧ r.page_in_pdf = i + j + 1
        ∧ r.page_in_on = ti + mcount (pages.take (j + 1))
        ∧ r.title = lastTitle ct (pages.take (j + 1)) := by
  intro pages
  induction pages with
  | nil => intro ct ti i r h; simp [extractAux] at h
  | cons t rest ih =>
    intro ct ti i r h
    simp only [extractAux, List.mem_append] at h
    rcases h with h | h
    · obtain ⟨h1, h2, h3⟩ := pageRowsAux_mem _ _ _ _ _ _ h
      refine ⟨0, by simp, by omega, ?_, ?_⟩
      · rw [h1, pageState_snd]
        simp [List.take_succ_cons, mcount_singleton]
      · rw [h2, pageState_fst]
        simp [List.take_succ_cons, lastTitle_cons, lastTitle]
    · obtain ⟨j, hj, hpdf, hon, htitle⟩ := ih _ _ _ _ h
      refine ⟨j + 1, by simpa using hj, by omega, ?_, ?_⟩
      · rw [hon, pageState_snd, List.take_succ_cons, mcount_cons]
        omega
      · rw [htitle, List.take_succ_cons, lastTitle_cons, pageState_fst]

theorem extractAux_ti_le (pages : List String) (ct : String) (ti i : Nat) (r : TextRow)
    (h : r ∈ extractAux ct ti i pages) : ti ≤ r.page_in_on := by
  obtain ⟨j, _, _, hon, _⟩ := extractAux_mem pages ct ti i r h
  omega

theorem extractAux_pdf_lb (pages : List String) (ct : String) (ti i : Nat) (r : TextRow)
    (h : r ∈ extractAux ct ti i pages) : i + 1 ≤ r.page_in_pdf := by
  obtain ⟨j, _, hpdf, _, _⟩ := extractAux_mem pages ct ti i r h
  omega

theorem extractAux_pdf_ub (pages : List String) (ct : String) (ti i : Nat) (r : TextRow)
    (h : r ∈ extractAux ct ti i pages) : r.page_in_pdf ≤ i + pages.length := by
  obtain ⟨j, hj, hpdf, _, _⟩ := extractAux_mem pages ct ti i r h
  omega

theorem extractAux_pairwise :
    ∀ (pages : List String) (ct : String) (ti i : Nat),
      ((extractAux ct ti i pages).map (fun r => r.page_in_on)).Pairwise (· ≤ ·) := by
  intro pages
  induction pages with
  | nil => intro ct ti i; simp [extractAux]
  | cons t rest ih =>
    intro ct ti i
    simp only [extractAux, List.map_append]
    rw [List.pairwise_append]
    refine ⟨?_, ih _ _ _, ?_⟩
    · apply List.pairwise_of_forall_mem_list
      intro a ha b hb
      simp only [List.mem_map] at ha hb
      obtain ⟨ra, hra, hea⟩ := ha
      obtain ⟨rb, hrb, heb⟩ := hb
      obtain ⟨ha1, _, _⟩ := pageRowsAux_mem _ _ _ _ _ _ hra
      obtain ⟨hb1, _, _⟩ := pageRowsAux_mem _ _ _ _ _ _ hrb
      omega
    · intro a ha b hb
      simp only [List.mem_map] at ha hb
      obtain ⟨ra, hra, hea⟩ := ha
      obtain ⟨rb, hrb, heb⟩ := hb
      obtain ⟨ha1, _, _⟩ := pageRowsAux_mem _ _ _ _ _ _ hra
      have := extractAux_ti_le _ _ _ _ _ hrb
      rw [pageState_snd] at ha1 this
      omega

theorem pageRowsAux_pdf_filter (ct : String) (ti : Nat) (pageNo j : Nat) (ps : List String) :
    (pageRowsAux ct ti pageNo j ps).filter (fun r => decide (r.page_in_pdf = pageNo))
      = pageRowsAux ct ti pageNo j ps := by
  apply List.filter_eq_self.mpr
  intro r hr
  obtain ⟨_, _, h3⟩ := pageRowsAux_mem _ _ _ _ _ _ hr
  simp [h3]

theorem extractAux_filter_nil (pages : List String) (ct : String) (ti i m : Nat) (hm : m ≤ i) :
    (extractAux ct ti i pages).filter (fun r => decide (r.page_in_pdf = m)) = [] := by
  apply List.filter_eq_nil_iff.mpr
  intro r hr
  have := extractAux_pdf_lb _ _ _ _ _ hr
  simp only [decide_eq_true_eq]
  omega

theorem extractAux_filter :
    ∀ (pages : List String) (ct : String) (ti i j : Nat) (h : j < pages.length),
      (extractAux ct ti i pages).filter (fun r => decide (r.page_in_pdf = i + j + 1))
        = pageRowsAux (lastTitle ct (pages.take (j + 1))) (ti + mcount (pages.take (j + 1)))
            (i + j + 1) 0 (splitParas (pages.get ⟨j, h⟩)) := by
  intro pages
  induction pages with
  | nil => intro ct ti i j h; simp at h
  | cons t rest ih =>
    intro ct ti i j h
    cases j with
    | zero =>
      simp only [extractAux, List.filter_append, Nat.add_zero]
      rw [pageRowsAux_pdf_filter, extractAux_filter_nil rest _ _ (i + 1) (i + 1) (le_refl _),
        List.append_nil]
      have e1 : lastTitle ct (List.take (0 + 1) (t :: rest)) = (pageState ct ti t).1 := by
        rw [pageState_fst]
        simp [List.take_succ_cons, lastTitle_cons, lastTitle]
      have e2 : ti + mcount (List.take (0 + 1) (t :: rest)) = (pageState ct ti t).2 := by
        rw [pageState_snd]
        simp [List.take_succ_cons, mcount_singleton]
      rw [e1, e2]
      rfl
    | succ j' =>
      simp only [extractAux, List.filter_append]
      have e0 : (pageRowsAux (pageState ct ti t).1 (pageState ct ti t).2 (i + 1) 0
          (splitParas t)).filter (fun r => decide (r.page_in_pdf = i + (j' + 1) + 1)) = [] := by
        apply List.filter_eq_nil_iff.mpr
        intro r hr
        obtain ⟨_, _, h3⟩ := pageRowsAux_mem _ _ _ _ _ _ hr
        simp only [decide_eq_true_eq]
        omega
      rw [e0, List.nil_append]
      have e1 : lastTitle ct (List.take (j' + 1 + 1) (t :: rest))
          = lastTitle (pageState ct ti t).1 (List.take (j' + 1) rest) := by
        rw [List.take_succ_cons, lastTitle_cons, pageState_fst]
      have e2 : ti + mcount (List.take (j' + 1 + 1) (t :: rest))
          = (pageState ct ti t).2 + mcount (List.take (j' + 1) rest) := by
        rw [List.take_succ_cons, mcount_cons, pageState_snd]
        omega
      have e3 : (t :: rest).get ⟨j' + 1, h⟩ = rest.get ⟨j', by simpa using h⟩ := rfl
      rw [e1, e2, e3, show i + (j' + 1) + 1 = i + 1 + j' + 1 by omega]
      exact ih _ _ _ _ _

theorem mcount_eq_zero (l : List String) (h : ∀ t ∈ l, markerOf t = false) : mcount l = 0 := by
  rw [mcount, List.countP_eq_zero]
  intro t ht
  simp [h t ht]

theorem lastTitle_eq (ct : String) (l : List String) (h : ∀ t ∈ l, markerOf t = false) :
    lastTitle ct l = ct := by
  induction l with
  | nil => rfl
  | cons t rest ih =>
    rw [lastTitle_cons]
    have ht := h t (by simp)
    simp only [ht, Bool.false_eq_true, if_false]
    exact ih (fun s hs => h s (by simp [hs]))

theorem loadStep_error (e : PyErr) (entry : String × Except PyErr (List EmbUnit)) :
    loadStep (.error e) entry = .error e := rfl

theorem foldl_loadStep_error (store : List (String × Except PyErr (List EmbUnit))) (e : PyErr) :
    store.foldl loadStep (.error e) = .error e := by
  induction store with
  | nil => rfl
  | cons p rest ih => simp [List.foldl_cons, loadStep_error, ih]

theorem foldl_loadStep_ok (store : List (String × Except PyErr (List EmbUnit))) :
    ∀ (embs : List EmbUnit), (∀ p ∈ store, ∃ us, p.2 = .ok us) →
      store.foldl loadStep (.ok (some embs))
        = .ok (some (store.foldl (fun a q => a ++ okUnits q.2) embs)) := by
  induction store with
  | nil => intro embs _; rfl
  | cons p rest ih =>
    intro embs hall
    obtain ⟨us, hus⟩ := hall p (by simp)
    have step : loadStep (.ok (some embs)) p = .ok (some (embs ++ us)) := by
      simp [loadStep, hus]
    have oku : okUnits p.2 = us := by rw [hus]; rfl
    rw [List.foldl_cons, step, ih _ (fun q hq => hall q (by simp [hq])), List.foldl_cons, oku]

theorem foldl_loadStep_err (store : List (String × Except PyErr (List EmbUnit))) :
    ∀ (s : Option (List EmbUnit)), (∃ p ∈ store, ∃ e, p.2 = .error e) →
      ∃ e, store.foldl loadStep (.ok s) = .error e := by
  induction store with
  | nil => intro s h; simp at h
  | cons p rest ih =>
    intro s h
    cases hp : p.2 with
    | error e =>
      refine ⟨e, ?_⟩
      have step : loadStep (.ok s) p = .error e := by
        cases s <;> simp [loadStep, hp]
      rw [List.foldl_cons, step, foldl_loadStep_error]
    | ok us =>
      have hrest : ∃ q ∈ rest, ∃ e, q.2 = .error e := by
        rcases h with ⟨q, hq, e, he⟩
        rcases List.mem_cons.mp hq with hq | hq
        · subst hq; rw [hp] at he; cases he
        · exact ⟨q, hq, e, he⟩
      have step : ∃ s2, loadStep (.ok s) p = .ok s2 := by
        cases s <;> simp [loadStep, hp]
      obtain ⟨s2, hs2⟩ := step
      rw [List.foldl_cons, hs2]
      exact ih s2 hrest

theorem foldl_append_mem (l : List (String × List EmbUnit)) :
    ∀ (acc : List EmbUnit) (u : EmbUnit),
      u ∈ l.foldl (fun a p => a ++ p.2) acc ↔ u ∈ acc ∨ ∃ p ∈ l, u ∈ p.2 := by
  induction l with
  | nil => intro acc u; simp
  | cons p rest ih =>
    intro acc u
    rw [List.foldl_cons, ih]
    simp [List.mem_append, or_assoc]

theorem mcount_append (a b : List String) : mcount (a ++ b) = mcount a + mcount b := by
  simp [mcount, List.countP_append]

theorem lastTitle_append_singleton (ct : String) (l : List String) (p : String) :
    lastTitle ct (l ++ [p])
      = if markerOf p then (find_title p).getD "" else lastTitle ct l := by
  simp [lastTitle, List.foldl_append]

theorem mem_storeDataset (fs : FileStore) (ds : List EmbUnit) (u : EmbUnit)
    (h : storeDataset fs = some ds) (hu : u ∈ ds) : ∃ p ∈ fs.embDirs, u ∈ p.2 := by
  obtain ⟨pf, dirs⟩ := fs
  cases dirs with
  | nil => simp [storeDataset] at h
  | cons p rest =>
    simp only [storeDataset, Option.some.injEq] at h
    subst h
    have := (foldl_append_mem (p :: rest) [] u).mp hu
    simpa using this

theorem list_document_ids_excludes (fs : FileStore) (d : String)
    (hn : ∀ p ∈ fs.embDirs, ∀ u ∈ p.2, u.file_name = p.1)
    (hd : ∀ p ∈ fs.embDirs, p.1 ≠ d) : d ∉ list_document_ids fs := by
  intro hmem
  rw [list_document_ids] at hmem
  cases hE : storeDataset fs with
  | none => rw [hE] at hmem; simp [get_pdf_names] at hmem
  | some ds =>
    rw [hE] at hmem
    simp only [get_pdf_names, List.mem_dedup, List.mem_map] at hmem
    obtain ⟨u, hu, hud⟩ := hmem
    obtain ⟨p, hp, hup⟩ := mem_storeDataset fs ds u hE hu
    exact hd p hp (by rw [← hn p hp u hup, hud])

/-- C2: for every document with at least one detected title marker, the
section index (`page_in_on`) of the extracted rows is non-decreasing in
document order, each row's section index equals the number of markers
detected on the pages up to and including the row's page (so it is
incremented exactly once per detected marker), and each row's
section title is the title of the most recent marker page (it updates on a
marker page and persists until the next marker). -/
theorem section_index_spec (pages : List String) (_h : ∃ t ∈ pages, markerOf t = true) :
    ((extract_text pages).map (fun r => r.page_in_on)).Pairwise (· ≤ ·)
    ∧ ∀ r ∈ extract_text pages,
        r.page_in_on = mcount (pages.take r.page_in_pdf)
        ∧ r.title = lastTitle "" (pages.take r.page_in_pdf) := by
  refine ⟨extractAux_pairwise pages "" 0 0, ?_⟩
  intro r hr
  obtain ⟨j, hj, hpdf, hon, htitle⟩ := extractAux_mem pages "" 0 0 r hr
  have e : r.page_in_pdf = j + 1 := by omega
  rw [e]
  constructor
  · rw [hon]; omega
  · exact htitle

/-- Witness for `section_index_spec` at a one-page document whose page
carries a title marker. -/
theorem section_index_witness :
    (∃ t ∈ ["Plan\nMonday x a.\n"], markerOf t = true)
    ∧ (((extract_text ["Plan\nMonday x a.\n"]).map (fun r => r.page_in_on)).Pairwise (· ≤ ·)
       ∧ ∀ r ∈ extract_text ["Plan\nMonday x a.\n"],
           r.page_in_on = mcount (["Plan\nMonday x a.\n"].take r.page_in_pdf)
           ∧ r.title = lastTitle "" (["Plan\nMonday x a.\n"].take r.page_in_pdf)) :=
  ⟨by decide, section_index_spec ["Plan\nMonday x a.\n"] (by decide)⟩

/-- C3: for every document in which no page carries a detected title
marker, every extracted row has empty section title and section index 0. -/
theorem no_marker_spec (pages : List String) (h : ∀ t ∈ pages, markerOf t = false) :
    ∀ r ∈ extract_text pages, r.title = "" ∧ r.page_in_on = 0 := by
  intro r hr
  obtain ⟨j, hj, hpdf, hon, htitle⟩ := extractAux_mem pages "" 0 0 r hr
  have hsub : ∀ t ∈ pages.take (j + 1), markerOf t = false :=
    fun t ht => h t (List.take_subset _ _ ht)
  constructor
  · rw [htitle, lastTitle_eq _ _ hsub]
  · rw [hon, mcount_eq_zero _ hsub]

/-- Witness for `no_marker_spec` at a marker-free two-page document. -/
theorem no_marker_witness :
    (∀ t ∈ ["Hello there", "more text x.\nand y"], markerOf t = false)
    ∧ ∀ r ∈ extract_text ["Hello there", "more text x.\nand y"],
        r.title = "" ∧ r.page_in_on = 0 :=
  ⟨by decide, no_marker_spec ["Hello there", "more text x.\nand y"] (by decide)⟩

/-- C4: on every page, the rows kept after discarding the empty or
whitespace-only segments of the paragraph split carry `paragraph` values
1, 2, ... in order (the discarded segments consume no slot and the
numbering restarts at 1 on each page), their texts are exactly the kept
segments of that page, and `page_in_pdf` is the 1-based position of the
page. -/
theorem paragraph_index_spec (pages : List String) (i : Nat) (h : i < pages.length) :
    (((extract_text pages).filter (fun r => decide (r.page_in_pdf = i + 1))).map
        (fun r => r.paragraph) = List.range' 1 (splitParas (pages.get ⟨i, h⟩)).length)
    ∧ (((extract_text pages).filter (fun r => decide (r.page_in_pdf = i + 1))).map
        (fun r => r.text) = splitParas (pages.get ⟨i, h⟩))
    ∧ ∀ r ∈ extract_text pages, 1 ≤ r.page_in_pdf ∧ r.page_in_pdf ≤ pages.length := by
  have hf := extractAux_filter pages "" 0 0 i h
  simp only [Nat.zero_add] at hf
  refine ⟨?_, ?_, ?_⟩
  · simp only [extract_text]
    rw [hf, pageRowsAux_map_paragraph]
  · simp only [extract_text]
    rw [hf, pageRowsAux_map_text]
  · intro r hr
    have h1 := extractAux_pdf_lb pages "" 0 0 r hr
    have h2 := extractAux_pdf_ub pages "" 0 0 r hr
    omega

/-- Witness for `paragraph_index_spec` at a page containing an empty
segment between two bullet markers, which consumes no paragraph slot. -/
theorem paragraph_index_witness :
    ((0 : Nat) < ([pageW] : List String).length)
    ∧ ((((extract_text [pageW]).filter (fun r => decide (r.page_in_pdf = 0 + 1))).map
          (fun r => r.paragraph)
        = List.range' 1 (splitParas (([pageW] : List String).get ⟨0, by decide⟩)).length)
      ∧ (((extract_text [pageW]).filter (fun r => decide (r.page_in_pdf = 0 + 1))).map
          (fun r => r.text)
        = splitParas (([pageW] : List String).get ⟨0, by decide⟩))
      ∧ ∀ r ∈ extract_text [pageW],
          1 ≤ r.page_in_pdf ∧ r.page_in_pdf ≤ ([pageW] : List String).length) :=
  ⟨by decide, paragraph_index_spec [pageW] 0 (by decide)⟩

/-- C9: the 2-page scenario. Page 1 has no title marker; page 2 starts
with the title line "Project Plan" followed by a date line containing
"Monday" and three bullet paragraphs. Extraction yields the page-1 unit
with empty section title and section index 0, and page-2 units with
section title "Project Plan", section index 1 and paragraph indices 1, 2,
3. -/
theorem two_page_scenario :
    extract_text ["Hello world",
        "Project Plan\nMonday, January 1, 2024\nFirst bullet a.\nSecond bullet b.\nThird bullet c.\n"]
      = [⟨0, "", 1, 1, "Hello world"⟩,
         ⟨1, "Project Plan", 2, 1, "Project Plan\nMonday, January 1, 2024\nFirst bullet "⟩,
         ⟨1, "Project Plan", 2, 2, "Second bullet "⟩,
         ⟨1, "Project Plan", 2, 3, "Third bullet "⟩] := by decide

/-- C10 counterexample: in the page text "Hello\nMonday" the weekday token
starts at index 6 and the line break immediately preceding it is at index
5, so the text between that line break and the token is empty; the claim
then demands an empty extracted title and no marker. Instead `find_title`
returns the nonempty previous line "Hello" (the backwards newline search
stops one character short of the token), the page is treated as carrying a
marker, and its unit gets section title "Hello" and section index 1. -/
theorem empty_title_counterexample :
    findWeekday "Hello\nMonday".data = some 6
    ∧ pyRfind "Hello\nMonday".data '\n' 0 6 = 5
    ∧ pyStrip (pySlice "Hello\nMonday".data 6 6) = []
    ∧ find_title "Hello\nMonday" = some "Hello"
    ∧ (extract_text ["Hello\nMonday"]).map (fun r => (r.title, r.page_in_on))
        = [("Hello", 1)] := by decide

/-- C10 amended: for every page whose extracted candidate title strips to
the empty string (`find_title` returns the empty string; the candidate is
the text between the last line break strictly before the character
preceding the token, or the page start, and the token), the page is
treated as having no marker: its units keep the section title and section
index accumulated from the preceding pages. -/
theorem empty_title_amended (pages : List String) (i : Nat) (h : i < pages.length)
    (hw : find_title (pages.get ⟨i, h⟩) = some "") :
    ∀ r ∈ extract_text pages, r.page_in_pdf = i + 1 →
      r.page_in_on = mcount (pages.take i) ∧ r.title = lastTitle "" (pages.take i) := by
  intro r hr hpdf
  obtain ⟨j, hj, hpdfj, hon, htitle⟩ := extractAux_mem pages "" 0 0 r hr
  have hij : j = i := by omega
  subst hij
  have hm : markerOf pages[j] = false := by
    unfold markerOf
    have hw2 : find_title pages[j] = some "" := hw
    rw [hw2]
    rfl
  have htake : pages.take (j + 1) = pages.take j ++ [pages.get ⟨j, h⟩] := by
    rw [List.take_succ, List.getElem?_eq_getElem h]
    rfl
  rw [htake] at hon htitle
  constructor
  · rw [hon, mcount_append]
    simp [mcount_singleton, hm]
  · rw [htitle, lastTitle_append_singleton]
    simp [hm]

/-- Witness for `empty_title_amended` at a page whose weekday token is
preceded only by a line break, so the candidate title strips to empty. -/
theorem empty_title_witness :
    ((0 : Nat) < (["\nMonday hi"] : List String).length)
    ∧ find_title ((["\nMonday hi"] : List String).get ⟨0, by decide⟩) = some ""
    ∧ ∀ r ∈ extract_text ["\nMonday hi"], r.page_in_pdf = 0 + 1 →
        r.page_in_on = mcount ((["\nMonday hi"] : List String).take 0)
        ∧ r.title = lastTitle "" ((["\nMonday hi"] : List String).take 0) :=
  ⟨by decide, by decide, empty_title_amended ["\nMonday hi"] 0 (by decide) (by decide)⟩

/-- C1: whenever the search route succeeds, every returned result carries
a file name from the posted candidate list when that list is non-empty and
in any case a file name present in the index, the number of results is at
most `k`, and the results are ordered by non-decreasing score. -/
theorem search_results_spec (store : List EmbUnit) (q : List Int) (selected : List String)
    (k : Nat) (results : List (Int × EmbUnit))
    (h : search (some store) q selected k = .ok results) :
    (∀ r ∈ results, (selected ≠ [] → r.2.file_name ∈ selected)
        ∧ r.2.file_name ∈ store.map (fun u => u.file_name))
    ∧ results.length ≤ k
    ∧ results.Sorted scoreLE := by
  rw [search] at h
  split at h
  · exact absurd h (by simp)
  · have hres : results = List.insertionSort scoreLE
        ((List.insertionSort scoreLE ((searchFiltered store selected).map
          (fun u => (sqDist q u.embeddings, u)))).take k) := (Except.ok.inj h).symm
    subst hres
    refine ⟨?_, ?_, List.sorted_insertionSort _ _⟩
    · intro r hr
      have hr1 : r ∈ (List.insertionSort scoreLE ((searchFiltered store selected).map
          (fun u => (sqDist q u.embeddings, u)))).take k :=
        (List.perm_insertionSort _ _).mem_iff.mp hr
      have hr2 : r ∈ List.insertionSort scoreLE ((searchFiltered store selected).map
          (fun u => (sqDist q u.embeddings, u))) := List.mem_of_mem_take hr1
      have hr3 : r ∈ (searchFiltered store selected).map
          (fun u => (sqDist q u.embeddings, u)) := (List.perm_insertionSort _ _).mem_iff.mp hr2
      obtain ⟨u, hu, hru⟩ := List.mem_map.mp hr3
      obtain ⟨hustore, husel⟩ := List.mem_filter.mp hu
      have hsel : u.file_name ∈ selOf store selected := by
        simpa using husel
      constructor
      · intro hne
        have hie : selected.isEmpty = false := by
          cases selected with
          | nil => exact absurd rfl hne
          | cons a l => rfl
        rw [selOf, hie] at hsel
        simpa [← hru] using hsel
      · rw [← hru]
        exact List.mem_map.mpr ⟨u, hustore, rfl⟩
    · calc (List.insertionSort scoreLE ((List.insertionSort scoreLE
            ((searchFiltered store selected).map
              (fun u => (sqDist q u.embeddings, u)))).take k)).length
          = ((List.insertionSort scoreLE ((searchFiltered store selected).map
              (fun u => (sqDist q u.embeddings, u)))).take k).length :=
            (List.perm_insertionSort _ _).length_eq
        _ ≤ k := List.length_take_le _ _

/-- Witness for `search_results_spec` at a one-unit index queried with no
selection. -/
theorem search_results_witness :
    (search (some [sampleUnit]) [0] [] 5 = Except.ok [((0 : Int), sampleUnit)])
    ∧ ((∀ r ∈ [((0 : Int), sampleUnit)],
          ((([] : List String) ≠ []) → r.2.file_name ∈ ([] : List String))
          ∧ r.2.file_name ∈ [sampleUnit].map (fun u => u.file_name))
      ∧ ([((0 : Int), sampleUnit)]).length ≤ 5
      ∧ ([((0 : Int), sampleUnit)]).Sorted scoreLE) :=
  ⟨rfl, search_results_spec [sampleUnit] [0] [] 5 [((0 : Int), sampleUnit)] rfl⟩

/-- C5 counterexample: for a row with title "T" and text "x" the encoder
receives the five-character string built with the separator, not the
two-character plain concatenation of section title and text, as shown by
an encoder that records the length of its input. -/
theorem embed_concat_counterexample :
    (create_features_from_dataframe [sampleRow]).map (fun x => x.2) = ["T \n x"]
    ∧ (generate_embeddings_for_dataframe [sampleRow] strLen).map (fun x => x.2.2)
        = [[(5 : Int)]]
    ∧ strLen ("T" ++ "x") = [(2 : Int)]
    ∧ ("T \n x" : String) ≠ "T" ++ "x" :=
  ⟨rfl, rfl, rfl, by decide⟩

/-- C5 amended: the text handed to the encoder at ingestion for every unit
is the concatenation of the unit's section title, the separator
" \n " (space, newline, space), and its text; the query embedding at
search time is computed from the query text alone. -/
theorem embed_concat_amended (df : List DocRow) (embed : String → List Int) (q : String) :
    (generate_embeddings_for_dataframe df embed).map (fun x => x.2.2)
      = df.map (fun r => embed (r.title ++ " \n " ++ r.text))
    ∧ compute_embeddings [q] embed = [embed q] := by
  constructor
  · simp [generate_embeddings_for_dataframe, create_features_from_dataframe,
      compute_embeddings, List.map_map]
  · rfl

/-- C6 counterexample: over a store holding one corrupt and one valid
document index, the loading loop raises the corrupt document's exception
in either order instead of returning the valid document's units, although
the valid store alone loads fine. -/
theorem load_all_counterexample :
    load_all [("bad", .error .corrupt), ("good", .ok [sampleUnit])] = .error .corrupt
    ∧ load_all [("good", .ok [sampleUnit]), ("bad", .error .corrupt)] = .error .corrupt
    ∧ load_all [("good", .ok [sampleUnit])] = .ok (some [sampleUnit]) :=
  ⟨rfl, rfl, rfl⟩

/-- C6 amended: `load_all` returns the union of the persisted document
indexes when every one of them loads successfully; when any persisted
document index is corrupt or unreadable, the exception propagates to the
caller and no units are returned (there is no per-document skip or
warning). -/
theorem load_all_amended (store : List (String × Except PyErr (List EmbUnit))) :
    ((∀ p ∈ store, ∃ us, p.2 = .ok us) → load_all store = .ok (loadAllOk store))
    ∧ ((∃ p ∈ store, ∃ e, p.2 = .error e) → ∃ e, load_all store = .error e) := by
  constructor
  · intro hall
    cases store with
    | nil => rfl
    | cons p rest =>
      obtain ⟨us, hus⟩ := hall p (by simp)
      have step : loadStep (.ok none) p = .ok (some us) := by
        simp [loadStep, hus]
      have oku : okUnits p.2 = us := by rw [hus]; rfl
      rw [load_all, List.foldl_cons, step,
        foldl_loadStep_ok rest us (fun q hq => hall q (by simp [hq]))]
      simp only [loadAllOk, oku]
  · intro hex
    simpa [load_all] using foldl_loadStep_err store none hex

/-- Witness for `load_all_amended`: a fully valid store loads to its
union, and a store with a corrupt entry errors. -/
theorem load_all_amended_witness :
    (load_all [("good", Except.ok [sampleUnit])]
      = Except.ok (loadAllOk [("good", Except.ok [sampleUnit])]))
    ∧ ∃ e, load_all [("bad", Except.error PyErr.corrupt)] = Except.error e :=
  ⟨(load_all_amended [("good", Except.ok [sampleUnit])]).1
      (fun p hp => ⟨[sampleUnit], by rw [List.mem_singleton.mp hp]⟩),
   (load_all_amended [("bad", Except.error PyErr.corrupt)]).2
      ⟨("bad", Except.error PyErr.corrupt), by simp, PyErr.corrupt, rfl⟩⟩

/-- C7 counterexample: with an empty index store (no units at all, hence
an empty restricted candidate set) the search route raises `TypeError`
when no documents are selected and `AttributeError` when a selection is
posted; it does not return a zero-result success, and the code base
defines no `EmptyIndexError`. -/
theorem empty_search_counterexample :
    search none [0] [] 5 = Except.error PyErr.typeError
    ∧ search none [0] ["a"] 5 = Except.error PyErr.attributeError
    ∧ search none [0] [] 5 ≠ Except.ok [] := by
  refine ⟨rfl, rfl, fun hcontra => ?_⟩
  rw [show search none [0] [] 5 = Except.error PyErr.typeError from rfl] at hcontra
  exact Except.noConfusion hcontra

/-- C7 amended: when the index store holds no loaded units, the search
operation fails with a raised exception that propagates to the caller
(`TypeError` without a selection, `AttributeError` with one); the
condition is not converted to an empty result list. -/
theorem empty_search_amended (q : List Int) (selected : List String) (k : Nat) :
    search none q selected k
      = Except.error (if selected.isEmpty then PyErr.typeError else PyErr.attributeError) := by
  cases selected <;> rfl

/-- C8: on a consistent store (a document has a PDF file exactly when it
has an embedding directory, and persisted units carry their directory's
name), removing a document succeeds, removing it again is a no-op that
does not error and leaves the state unchanged, and after the removal the
document id is absent from `list_document_ids`; in particular removing a
non-existent document id is not an error. -/
theorem remove_idempotent_spec (fs : FileStore) (d : String)
    (hc : d ∈ fs.pdfFiles ↔ d ∈ fs.embDirs.map Prod.fst)
    (hn : ∀ p ∈ fs.embDirs, ∀ u ∈ p.2, u.file_name = p.1) :
    (remove_file_and_embedding fs d).1 = .ok ()
    ∧ (remove_file_and_embedding (remove_file_and_embedding fs d).2 d).1 = .ok ()
    ∧ (remove_file_and_embedding (remove_file_and_embedding fs d).2 d).2
        = (remove_file_and_embedding fs d).2
    ∧ d ∉ list_document_ids (remove_file_and_embedding fs d).2 := by
  by_cases hd : d ∈ fs.pdfFiles
  · have hemb : d ∈ fs.embDirs.map Prod.fst := hc.mp hd
    have h1 : remove_file_and_embedding fs d
        = (.ok (), ⟨fs.pdfFiles.filter (fun p => decide (p ≠ d)),
            fs.embDirs.filter (fun p => decide (p.1 ≠ d))⟩) := by
      rw [remove_file_and_embedding, if_pos hd, if_pos hemb]
    have hd2 : d ∉ (fs.pdfFiles.filter (fun p => decide (p ≠ d))) := by
      intro hmem
      have := (List.mem_filter.mp hmem).2
      simp at this
    have h2 : remove_file_and_embedding
        (⟨fs.pdfFiles.filter (fun p => decide (p ≠ d)),
          fs.embDirs.filter (fun p => decide (p.1 ≠ d))⟩ : FileStore) d
        = (.ok (), ⟨fs.pdfFiles.filter (fun p => decide (p ≠ d)),
            fs.embDirs.filter (fun p => decide (p.1 ≠ d))⟩) := by
      rw [remove_file_and_embedding, if_neg hd2]
    rw [h1]
    refine ⟨rfl, ?_, ?_, ?_⟩
    · rw [h2]
    · rw [h2]
    · apply list_document_ids_excludes
      · intro p hp u hu
        exact hn p (List.mem_of_mem_filter hp) u hu
      · intro p hp
        have := (List.mem_filter.mp hp).2
        simpa using this
  · have h1 : remove_file_and_embedding fs d = (.ok (), fs) := by
      rw [remove_file_and_embedding, if_neg hd]
    rw [h1]
    refine ⟨rfl, by rw [h1], by rw [h1], ?_⟩
    apply list_document_ids_excludes
    · exact hn
    · intro p hp hpd
      exact hd (hc.mpr (List.mem_map.mpr ⟨p, hp, hpd⟩))

/-- Witness for `remove_idempotent_spec` at a consistent one-document
store. -/
theorem remove_idempotent_witness :
    (remove_file_and_embedding sampleStore "a").1 = .ok ()
    ∧ (remove_file_and_embedding (remove_file_and_embedding sampleStore "a").2 "a").1 = .ok ()
    ∧ (remove_file_and_embedding (remove_file_and_embedding sampleStore "a").2 "a").2
        = (remove_file_and_embedding sampleStore "a").2
    ∧ "a" ∉ list_document_ids (remove_file_and_embedding sampleStore "a").2 :=
  remove_idempotent_spec sampleStore "a" (by decide) (by decide)

